import Mathlib

/-!
Verification of the API-key rotation / retry layer and the repository cache
of the GitHub-Chat backend.

The definitions below are a shallow embedding of:
  * `src/Backend/src/utils/llm.py` — `KeyManager` and `generate_response`
    (key rotation, quota-error classification, retry budget);
  * `src/backend/modules/cache.py` — `load_repo_cache`, `save_repo_cache`
    and `_enforce_lru_cache_limit` (TTL expiry, LRU eviction).

Conventions: Python machine state (the key manager's index, the cache
directory) is passed explicitly; wall-clock timestamps are natural numbers;
the external LLM call is a function from the attempt number to its outcome.
-/

namespace GithubChat

/-! ### KeyManager (src/Backend/src/utils/llm.py, lines 9-54) -/

/-- Error raised by `KeyManager.__init__` when `GEMINI_API_KEY` is unset
(`raise ValueError("GEMINI_API_KEY must be set in environment")`). -/
inductive ConfigErr where
  | missingPrimaryKey
  deriving Repr, DecidableEq

/-- State of the Python `KeyManager`: `primary_key`, `fallback_keys`,
and `current_key_index` (−1 means the primary key is active). -/
structure KeyManager where
  primary_key : String
  fallback_keys : List String
  current_key_index : Int
  deriving Repr, DecidableEq

/-- Python truthiness of an optional environment-variable value:
`not key` holds for an unset variable and for the empty string. -/
def pyFalsy : Option String → Bool
  | none => true
  | some s => s.isEmpty

/-- The fallback-discovery loop of `KeyManager.__init__`: read the slots
`GEMINI_API_KEY_2`, `GEMINI_API_KEY_3`, … in order and stop at the first
falsy one (`if not key: break`). -/
def discoverFallbacks : List (Option String) → List String
  | [] => []
  | none :: _ => []
  | some s :: rest => if s.isEmpty then [] else s :: discoverFallbacks rest

/-- Embeds `KeyManager.__init__`: fails when the primary slot is falsy, otherwise
starts at `current_key_index = -1` with the discovered fallbacks. -/
def KeyManager.init (primary : Option String) (slots : List (Option String)) :
    Except ConfigErr KeyManager :=
  if pyFalsy primary then .error .missingPrimaryKey
  else .ok ⟨primary.getD "", discoverFallbacks slots, -1⟩

/-- Embeds `KeyManager.get_current_key`. -/
def KeyManager.get_current_key (km : KeyManager) : String :=
  if km.current_key_index = -1 then km.primary_key
  else km.fallback_keys.getD km.current_key_index.toNat ""

/-- Embeds `KeyManager.rotate_key`: advance to the next fallback when one exists,
otherwise report failure and leave the state unchanged. -/
def KeyManager.rotate_key (km : KeyManager) : Bool × KeyManager :=
  if km.current_key_index < (km.fallback_keys.length : Int) - 1 then
    (true, { km with current_key_index := km.current_key_index + 1 })
  else
    (false, km)

/-- Embeds `KeyManager.reset`: return unconditionally to the primary key. -/
def KeyManager.reset (km : KeyManager) : KeyManager :=
  { km with current_key_index := -1 }

/-- The state after `n` consecutive `rotate_key` calls. -/
def iterRotate (km : KeyManager) : Nat → KeyManager
  | 0 => km
  | n + 1 => (iterRotate km n).rotate_key.2

/-! ### Quota-error classification (src/Backend/src/utils/llm.py, lines 98-115) -/

/-- Tests that `needle` is a leading segment of `hay` (character lists). -/
def segAt : List Char → List Char → Bool
  | [], _ => true
  | _ :: _, [] => false
  | n :: ns, h :: hs => n == h && segAt ns hs

/-- Python's `needle in hay` on character lists. -/
def hasSub (needle : List Char) : List Char → Bool
  | [] => segAt needle []
  | h :: hs => segAt needle (h :: hs) || hasSub needle hs

/-- Python's `s.lower()` (the messages involved are ASCII, where
`Char.toLower` and `str.lower` agree). -/
def strLower (s : String) : List Char := s.data.map Char.toLower

/-- Evaluates `token in str(e).lower()` for a lowercase `token` literal. -/
def strContainsCI (msg token : String) : Bool :=
  hasSub token.data (strLower msg)

/-- The quota / rate-limit test of `generate_response`:
`"quota" in error_message or "rate limit" in error_message or "429" in error_message`
on the lowercased message. -/
def isQuotaError (msg : String) : Bool :=
  strContainsCI msg "quota" || strContainsCI msg "rate limit" ||
    strContainsCI msg "429"

/-- Modelled from the spec: the failure-classification token set claimed by
the specification, which lists "quota", "rate limit", "429" and
"resource_exhausted" as the quota indicators (case-insensitive). Used only
to compare the claimed classifier against `isQuotaError` from the source. -/
def specQuotaIndicator (msg : String) : Bool :=
  strContainsCI msg "quota" || strContainsCI msg "rate limit" ||
    strContainsCI msg "429" || strContainsCI msg "resource_exhausted"

/-! ### generate_response (src/Backend/src/utils/llm.py, lines 61-117) -/

/-- Terminal errors of `generate_response`, one constructor per distinct
`raise` of a new exception: `Exception(f"LLM generation failed: {e}")`,
`Exception("All API keys exhausted")`, `Exception("Max retries exceeded")`.
`generationFailed` carries `str(e)` of the wrapped error. -/
inductive GenError where
  | generationFailed (msg : String)
  | keysExhausted
  | retriesExceeded
  deriving Repr, DecidableEq

/-- Outcome of one call to `model.generate_content_async`: a response whose
`.text` is the given string (the empty string models a missing/empty text
field), or a raised exception with the given message. -/
inductive CallOutcome where
  | success (text : String)
  | failure (msg : String)
  deriving Repr, DecidableEq

/-- The body of the `try:` block for one attempt: an empty or missing text
raises `ValueError("Empty response from LLM")` inside the `try`, so it
reaches the same `except` as an API failure. -/
def attemptResult : CallOutcome → Except String String
  | .success text =>
      if text.isEmpty then .error "Empty response from LLM" else .ok text
  | .failure msg => .error msg

/-- Tests that `outcome` is a raised error whose message passes the quota test. -/
def isQuotaFailure : CallOutcome → Bool
  | .success _ => false
  | .failure msg => isQuotaError msg

/-- The `while retries <= max_retries` loop of `generate_response`:
`remaining = max_retries + 1 - retries` iterations are left, `attempt`
numbers the calls made so far, and `km` is the key-manager state.
Returns the result together with the final key-manager state. -/
def generateAux (calls : Nat → CallOutcome) :
    Nat → Nat → KeyManager → Except GenError String × KeyManager
  | 0, _, km => (.error .retriesExceeded, km)
  | remaining + 1, attempt, km =>
    match attemptResult (calls attempt) with
    | .ok text => (.ok text, km)
    | .error msg =>
      if isQuotaError msg then
        match km.rotate_key with
        | (true, km') => generateAux calls remaining (attempt + 1) km'
        | (false, km') => (.error .keysExhausted, km')
      else
        (.error (.generationFailed msg), km)

/-- Embeds `generate_response(prompt, max_retries)`: run the retry loop from
`retries = 0` on the given key-manager state, with the external LLM calls
given by `calls` (call number ↦ outcome). -/
def generate_response (km : KeyManager) (calls : Nat → CallOutcome)
    (max_retries : Nat) : Except GenError String × KeyManager :=
  generateAux calls (max_retries + 1) 0 km

/-! ### Repository cache (src/backend/modules/cache.py) -/

/-- The JSON payload of one cache file:
`{"summary": ..., "tree": ..., "content": ..., "cached_at": ...}`. -/
structure CacheEntry where
  summary : String
  tree : String
  content : String
  cached_at : Nat
  deriving Repr, DecidableEq

/-- One file of the cache directory: its name (without the `.json`
extension), its filesystem access time (the LRU recency marker), and its
JSON payload. -/
structure CacheFile where
  name : String
  atime : Nat
  entry : CacheEntry
  deriving Repr, DecidableEq

/-- The cache directory: the list of its files. -/
abbrev CacheState := List CacheFile

/-- Embeds `CACHE_TTL_SECONDS = 6 * 60 * 60`. -/
def CACHE_TTL_SECONDS : Nat := 6 * 60 * 60

/-- Embeds `CACHE_MAX_FILES = 100`. -/
def CACHE_MAX_FILES : Nat := 100

/-- Embeds `get_cache_path`: the key `(owner, repo)` is stored under the file name
`f"{owner}_{repo}"` (`.json` suffix elided). -/
def cacheName (owner repo : String) : String := owner ++ "_" ++ repo

/-- Stable insertion of a file into a list sorted by ascending access time
(among equal access times, the inserted file keeps its earlier position,
as Python's stable `list.sort` does). -/
def insertByAtime (f : CacheFile) : CacheState → CacheState
  | [] => [f]
  | g :: gs =>
    if f.atime ≤ g.atime then f :: g :: gs else g :: insertByAtime f gs

/-- Embeds `files.sort(key=lambda x: x[1])`: stable sort by ascending access time. -/
def sortByAtime : CacheState → CacheState
  | [] => []
  | f :: fs => insertByAtime f (sortByAtime fs)

/-- Embeds `_enforce_lru_cache_limit`, with the module constant `CACHE_MAX_FILES`
as the parameter `maxFiles`: when the directory holds more than `maxFiles`
files, remove the `len - maxFiles` files with the oldest access times. -/
def enforce_lru_cache_limit (maxFiles : Nat) (st : CacheState) : CacheState :=
  if maxFiles < st.length then
    (sortByAtime st).drop (st.length - maxFiles)
  else st

/-- Embeds `open(path, "w")` followed by `json.dump`: create the file or
overwrite its payload in place. Creating a file sets its access time to
`now`; overwriting does NOT — a POSIX truncate-and-write updates the
modification time only, so an overwritten file keeps its old access time
(its LRU recency marker stays stale). -/
def setFile (name : String) (now : Nat) (e : CacheEntry) (st : CacheState) :
    CacheState :=
  if st.any (fun f => f.name == name) then
    st.map (fun f => if f.name == name then ⟨f.name, f.atime, e⟩ else f)
  else ⟨name, now, e⟩ :: st

/-- Embeds `save_repo_cache` at wall-clock time `now`: write the entry with
`cached_at = now`, then run the LRU eviction check. -/
def save_repo_cache (maxFiles : Nat) (now : Nat) (owner repo : String)
    (summary tree content : String) (st : CacheState) : CacheState :=
  enforce_lru_cache_limit maxFiles
    (setFile (cacheName owner repo) now ⟨summary, tree, content, now⟩ st)

/-- Embeds `load_repo_cache` at wall-clock time `now`: `None` when the file does
not exist; otherwise refresh its access time (`os.utime`), then serve the
payload only when `now - cached_at < ttl`. Returns the result together with
the cache directory afterwards. -/
def load_repo_cache (ttl : Nat) (now : Nat) (owner repo : String)
    (st : CacheState) : Option CacheEntry × CacheState :=
  match st.find? (fun f => f.name == cacheName owner repo) with
  | none => (none, st)
  | some f =>
    let st' := st.map (fun g =>
      if g.name == cacheName owner repo then { g with atime := now } else g)
    if (now : Int) - (f.entry.cached_at : Int) < (ttl : Int) then
      (some f.entry, st')
    else
      (none, st')

/-! ### KeyManager lemmas -/

/-- Closed form of the key-manager state after `k` rotations from the
freshly constructed state. -/
lemma iterRotate_fresh (p : String) (fb : List String) (k : Nat) :
    iterRotate ⟨p, fb, -1⟩ k = ⟨p, fb, ((min k fb.length : Nat) : Int) - 1⟩ := by
  induction k with
  | zero => simp [iterRotate]
  | succ n ih =>
    rw [iterRotate, ih]
    simp only [KeyManager.rotate_key]
    split
    · next h =>
      simp only [KeyManager.mk.injEq, true_and]
      omega
    · next h =>
      simp only [KeyManager.mk.injEq, true_and]
      omega

/-- Claim C5: from a freshly constructed `KeyManager` with `N` fallback
credentials, the first `N` `rotate_key` calls return `true`; every call
after that returns `false` and leaves the state unchanged (no wraparound,
the state stays at the one reached after `N` rotations), and
`get_current_key` after exhaustion still returns the last fallback. -/
theorem keyManager_rotation_exhaustion (p : String) (fb : List String) :
    (∀ k, k < fb.length → (iterRotate ⟨p, fb, -1⟩ k).rotate_key.1 = true) ∧
    (∀ m, fb.length ≤ m →
      (iterRotate ⟨p, fb, -1⟩ m).rotate_key = (false, iterRotate ⟨p, fb, -1⟩ m) ∧
      iterRotate ⟨p, fb, -1⟩ m = iterRotate ⟨p, fb, -1⟩ fb.length) ∧
    (∀ h : fb ≠ [],
      (iterRotate ⟨p, fb, -1⟩ fb.length).get_current_key = fb.getLast h) := by
  refine ⟨?_, ?_, ?_⟩
  · intro k hk
    rw [iterRotate_fresh]
    simp only [KeyManager.rotate_key]
    rw [if_pos (by push_cast; omega)]
  · intro m hm
    rw [iterRotate_fresh, iterRotate_fresh]
    constructor
    · simp only [KeyManager.rotate_key]
      rw [if_neg (by push_cast; omega)]
    · simp only [KeyManager.mk.injEq, true_and]
      omega
  · intro h
    have hpos : 0 < fb.length := List.length_pos.mpr h
    rw [iterRotate_fresh]
    simp only [KeyManager.get_current_key]
    rw [if_neg (by push_cast; omega)]
    rw [List.getLast_eq_getElem, List.getD_eq_getElem?_getD,
      show ((((min fb.length fb.length : Nat) : Int)) - 1).toNat = fb.length - 1 by omega,
      List.getElem?_eq_getElem (by omega)]
    rfl

/-- Claim C5 witness: the concrete scenario with fallbacks `["B", "C"]`. -/
theorem keyManager_rotation_exhaustion_witness :
    (iterRotate ⟨"A", ["B", "C"], -1⟩ 1).rotate_key.1 = true ∧
    (iterRotate ⟨"A", ["B", "C"], -1⟩ 2).rotate_key =
      (false, iterRotate ⟨"A", ["B", "C"], -1⟩ 2) ∧
    (iterRotate ⟨"A", ["B", "C"], -1⟩ 2).get_current_key = "C" := by
  have h := keyManager_rotation_exhaustion "A" ["B", "C"]
  exact ⟨h.1 1 (by decide), (h.2.1 2 (by decide)).1,
    h.2.2 (by decide)⟩

/-! ### generate_response lemmas -/

/-- When every external call fails with a quota-indicating message, the
retry loop ends in `retriesExceeded` when the remaining budget runs out
before the fallbacks do, and in `keysExhausted` otherwise. `k` counts the
rotations already performed (the key index is `k - 1`). -/
lemma generateAux_allQuota (p : String) (fb : List String)
    (calls : Nat → CallOutcome) (hq : ∀ i, isQuotaFailure (calls i) = true) :
    ∀ r a k, k ≤ fb.length →
      generateAux calls r a ⟨p, fb, (k : Int) - 1⟩ =
        if r ≤ fb.length - k then
          (.error .retriesExceeded, ⟨p, fb, ((k + r : Nat) : Int) - 1⟩)
        else
          (.error .keysExhausted, ⟨p, fb, ((fb.length : Nat) : Int) - 1⟩) := by
  intro r
  induction r with
  | zero =>
    intro a k hk
    rw [if_pos (by omega)]
    simp [generateAux]
  | succ n ih =>
    intro a k hk
    obtain ⟨m, hm, hqm⟩ : ∃ m, calls a = .failure m ∧ isQuotaError m = true := by
      have h := hq a
      cases hc : calls a with
      | success t => rw [hc] at h; simp [isQuotaFailure] at h
      | failure m =>
        rw [hc] at h
        exact ⟨m, rfl, by simpa [isQuotaFailure] using h⟩
    rw [generateAux, hm]
    simp only [attemptResult]
    rw [if_pos hqm]
    simp only [KeyManager.rotate_key]
    by_cases hkN : k < fb.length
    · rw [if_pos (by omega)]
      rw [show ((k : Int) - 1) + 1 = ((k + 1 : Nat) : Int) - 1 by push_cast; omega]
      show generateAux calls n (a + 1) ⟨p, fb, ((k + 1 : Nat) : Int) - 1⟩ = _
      rw [ih (a + 1) (k + 1) (by omega)]
      by_cases hcond : n ≤ fb.length - (k + 1)
      · rw [if_pos hcond, if_pos (by omega)]
        simp only [Prod.mk.injEq, KeyManager.mk.injEq, true_and]
        omega
      · rw [if_neg hcond, if_neg (by omega)]
    · rw [if_neg (by omega)]
      rw [if_neg (by omega)]
      simp only [Prod.mk.injEq, KeyManager.mk.injEq, true_and]
      omega

/-- When the first `K` external calls (from call number `a`) fail with
quota-indicating messages and the call after them returns non-empty text,
the retry loop returns that text after exactly `K` further rotations,
provided the budget and the fallbacks allow them. -/
lemma generateAux_quotaSuccess (p text : String) (fb : List String)
    (calls : Nat → CallOutcome) (htext : text.isEmpty = false) :
    ∀ K r a k, K < r → k + K ≤ fb.length →
      (∀ i, i < K → isQuotaFailure (calls (a + i)) = true) →
      calls (a + K) = .success text →
      generateAux calls r a ⟨p, fb, (k : Int) - 1⟩ =
        (.ok text, ⟨p, fb, ((k + K : Nat) : Int) - 1⟩) := by
  intro K
  induction K with
  | zero =>
    intro r a k hr hk hfail hsucc
    obtain ⟨n, rfl⟩ : ∃ n, r = n + 1 := ⟨r - 1, by omega⟩
    rw [generateAux, show a + 0 = a from rfl] at *
    rw [hsucc]
    simp [attemptResult, htext]
  | succ n ih =>
    intro r a k hr hk hfail hsucc
    obtain ⟨r', rfl⟩ : ∃ m, r = m + 1 := ⟨r - 1, by omega⟩
    obtain ⟨m, hm, hqm⟩ : ∃ m, calls a = .failure m ∧ isQuotaError m = true := by
      have h := hfail 0 (by omega)
      rw [show a + 0 = a from rfl] at h
      cases hc : calls a with
      | success t => rw [hc] at h; simp [isQuotaFailure] at h
      | failure m =>
        rw [hc] at h
        exact ⟨m, rfl, by simpa [isQuotaFailure] using h⟩
    rw [generateAux, hm]
    simp only [attemptResult]
    rw [if_pos hqm]
    simp only [KeyManager.rotate_key]
    rw [if_pos (by omega)]
    rw [show ((k : Int) - 1) + 1 = ((k + 1 : Nat) : Int) - 1 by push_cast; omega]
    show generateAux calls r' (a + 1) ⟨p, fb, ((k + 1 : Nat) : Int) - 1⟩ = _
    rw [ih r' (a + 1) (k + 1) (by omega) (by omega)
      (fun i hi => by
        have h := hfail (i + 1) (by omega)
        rwa [show a + (i + 1) = a + 1 + i by omega] at h)
      (by rwa [show a + 1 + n = a + (n + 1) by omega])]
    simp only [Prod.mk.injEq, KeyManager.mk.injEq, true_and]
    omega

/-! ### Claims C1-C4 -/

/-- Claim C1 counterexample: with `max_retries = 0`, a single quota failure
(`K = 1`, two fallbacks available, so `K` is less than the fallback count)
followed by a successful call makes `generate_response` raise
`retriesExceeded` instead of returning the success text — the claimed
behaviour is not independent of the configured `max_rotations` budget. -/
theorem generate_rotation_budget_counterexample :
    generate_response ⟨"A", ["B", "C"], -1⟩
      (fun i => if i = 0 then .failure "quota" else .success "hi") 0 =
      (.error .retriesExceeded, ⟨"A", ["B", "C"], 0⟩) := rfl

/-- Claim C1 (amended): for a prompt whose LLM call fails with a
quota-indicating message exactly `K` times and then succeeds with non-empty
text, where `K` is less than the number of fallback credentials AND `K`
does not exceed the `max_rotations` budget, `generate_response` returns the
successful call's text and the key manager has rotated exactly `K` times
(final index `K - 1`). -/
theorem generate_quota_retries_then_succeeds (p text : String)
    (fb : List String) (calls : Nat → CallOutcome) (K max_retries : Nat)
    (hK : K < fb.length) (hbudget : K ≤ max_retries)
    (hfail : ∀ i, i < K → isQuotaFailure (calls i) = true)
    (hsucc : calls K = .success text) (htext : text.isEmpty = false) :
    generate_response ⟨p, fb, -1⟩ calls max_retries =
      (.ok text, ⟨p, fb, (K : Int) - 1⟩) := by
  have h := generateAux_quotaSuccess p text fb calls htext K (max_retries + 1)
    0 0 (by omega) (by omega)
    (fun i hi => by simpa using hfail i hi) (by simpa using hsucc)
  rw [generate_response,
    show (⟨p, fb, -1⟩ : KeyManager) = ⟨p, fb, ((0 : Nat) : Int) - 1⟩ by norm_num,
    h]
  norm_num

/-- Claim C1 witness: one quota failure, then success, with two fallbacks
and the default budget `max_retries = 2`. -/
theorem generate_quota_retries_then_succeeds_witness :
    generate_response ⟨"A", ["B", "C"], -1⟩
      (fun i => if i = 0 then .failure "quota" else .success "hi") 2 =
      (.ok "hi", ⟨"A", ["B", "C"], 0⟩) := by
  have h := generate_quota_retries_then_succeeds "A" "hi" ["B", "C"]
    (fun i => if i = 0 then .failure "quota" else .success "hi") 1 2
    (by decide) (by decide)
    (fun i hi => by
      obtain rfl : i = 0 := by omega
      decide)
    (by decide) (by decide)
  simpa using h

/-- Claim C2 counterexample: the message "RESOURCE_EXHAUSTED" matches the
spec's claimed token set, yet `generate_response` classifies it as
non-recoverable and fails immediately as `generationFailed`, with no
rotation, even though a fallback key and retry budget remain. -/
theorem generate_classification_counterexample :
    specQuotaIndicator "RESOURCE_EXHAUSTED" = true ∧
    generate_response ⟨"A", ["B"], -1⟩
      (fun _ => .failure "RESOURCE_EXHAUSTED") 2 =
      (.error (.generationFailed "RESOURCE_EXHAUSTED"), ⟨"A", ["B"], -1⟩) :=
  ⟨by decide, rfl⟩

/-- Claim C2 (amended): an error raised by the LLM call is classified as a
recoverable quota failure iff its message, lowercased, contains one of the
tokens "quota", "rate limit" or "429" (`isQuotaError`) — the token
"resource_exhausted" is NOT in this implementation's set. On a match the
key manager rotates once and the loop retries (when a fallback exists;
with no fallbacks it raises `keysExhausted`); on a non-match it fails
immediately as `generationFailed` after that single attempt, with no
rotation, regardless of the budget and the remaining fallbacks. -/
theorem generate_failure_classification (p msg : String) (fb : List String)
    (calls : Nat → CallOutcome) (max_retries : Nat)
    (hfail : calls 0 = .failure msg) :
    (isQuotaError msg = false →
      generate_response ⟨p, fb, -1⟩ calls max_retries =
        (.error (.generationFailed msg), ⟨p, fb, -1⟩)) ∧
    (isQuotaError msg = true → fb ≠ [] →
      generate_response ⟨p, fb, -1⟩ calls max_retries =
        generateAux calls max_retries 1 ⟨p, fb, 0⟩) ∧
    (isQuotaError msg = true → fb = [] →
      generate_response ⟨p, fb, -1⟩ calls max_retries =
        (.error .keysExhausted, ⟨p, fb, -1⟩)) := by
  refine ⟨?_, ?_, ?_⟩
  · intro h
    rw [generate_response, generateAux, hfail]
    simp only [attemptResult]
    rw [if_neg (by simp [h])]
  · intro h hfb
    have hlen : 0 < fb.length := List.length_pos.mpr hfb
    rw [generate_response, generateAux, hfail]
    simp only [attemptResult]
    rw [if_pos h]
    simp only [KeyManager.rotate_key]
    rw [if_pos (by omega)]
    show generateAux calls max_retries 1 ⟨p, fb, -1 + 1⟩ = _
    norm_num
  · intro h hfb
    subst hfb
    rw [generate_response, generateAux, hfail]
    simp only [attemptResult]
    rw [if_pos h]
    simp only [KeyManager.rotate_key]
    rw [if_neg (by norm_num)]

/-- Claim C2 witness: a non-quota message fails immediately with no
rotation; a "quota" message rotates once and retries. -/
theorem generate_failure_classification_witness :
    generate_response ⟨"A", ["B"], -1⟩ (fun _ => .failure "boom") 2 =
      (.error (.generationFailed "boom"), ⟨"A", ["B"], -1⟩) ∧
    generate_response ⟨"A", ["B"], -1⟩
      (fun i => if i = 0 then .failure "quota" else .success "ok") 2 =
      generateAux (fun i => if i = 0 then .failure "quota" else .success "ok")
        2 1 ⟨"A", ["B"], 0⟩ := by
  constructor
  · exact (generate_failure_classification "A" "boom" ["B"]
      (fun _ => .failure "boom") 2 (by decide)).1 (by decide)
  · exact (generate_failure_classification "A" "quota" ["B"]
      (fun i => if i = 0 then .failure "quota" else .success "ok") 2
      (by decide)).2.1 (by decide) (by decide)

/-- Claim C3: with every call failing on a quota-indicating message,
`generate_response` ends in `keysExhausted` exactly when the fallbacks run
out within the budget (the rotation request is refused after a quota
failure), and in `retriesExceeded` exactly when the `max_rotations` budget
runs out first — in that case fallback keys may still remain. The two
terminal errors are distinct values. -/
theorem generate_terminal_error_distinction (p : String) (fb : List String)
    (calls : Nat → CallOutcome) (max_retries : Nat)
    (hq : ∀ i, isQuotaFailure (calls i) = true) :
    (fb.length ≤ max_retries →
      generate_response ⟨p, fb, -1⟩ calls max_retries =
        (.error .keysExhausted, ⟨p, fb, (fb.length : Int) - 1⟩)) ∧
    (max_retries < fb.length →
      generate_response ⟨p, fb, -1⟩ calls max_retries =
        (.error .retriesExceeded, ⟨p, fb, (max_retries : Int)⟩)) ∧
    GenError.keysExhausted ≠ GenError.retriesExceeded := by
  have h := generateAux_allQuota p fb calls hq (max_retries + 1) 0 0 (by omega)
  rw [show (⟨p, fb, ((0 : Nat) : Int) - 1⟩ : KeyManager) = ⟨p, fb, -1⟩
    by norm_num] at h
  refine ⟨?_, ?_, by decide⟩
  · intro hbudget
    rw [generate_response, h, if_neg (by omega)]
  · intro hbudget
    rw [generate_response, h, if_pos (by omega)]
    simp only [Prod.mk.injEq, KeyManager.mk.injEq, true_and]
    omega

/-- Claim C3 witness: one fallback and budget 2 ends in `keysExhausted`;
three fallbacks and budget 1 ends in `retriesExceeded`. -/
theorem generate_terminal_error_distinction_witness :
    generate_response ⟨"A", ["B"], -1⟩ (fun _ => .failure "quota") 2 =
      (.error .keysExhausted, ⟨"A", ["B"], 0⟩) ∧
    generate_response ⟨"A", ["B", "C", "D"], -1⟩ (fun _ => .failure "quota") 1 =
      (.error .retriesExceeded, ⟨"A", ["B", "C", "D"], 1⟩) := by
  constructor
  · have h := (generate_terminal_error_distinction "A" ["B"]
      (fun _ => .failure "quota") 2 (fun i => rfl)).1 (by decide)
    simpa using h
  · have h := (generate_terminal_error_distinction "A" ["B", "C", "D"]
      (fun _ => .failure "quota") 1 (fun i => rfl)).2.1 (by decide)
    simpa using h

/-- Claim C4 counterexample: an LLM call that completes with an empty text
field is surfaced under the SAME error constructor (`generationFailed`) as
an ordinary non-quota failure, not as a distinct `EmptyResponse` kind: the
internal `ValueError("Empty response from LLM")` is caught by the
function's own `except` block and re-wrapped like any other non-quota
error, so the two runs below produce identical results. -/
theorem generate_empty_response_counterexample :
    generate_response ⟨"A", ["B"], -1⟩ (fun _ => .success "") 2 =
      (.error (.generationFailed "Empty response from LLM"), ⟨"A", ["B"], -1⟩) ∧
    generate_response ⟨"A", ["B"], -1⟩
      (fun _ => .failure "Empty response from LLM") 2 =
      (.error (.generationFailed "Empty response from LLM"), ⟨"A", ["B"], -1⟩) :=
  ⟨rfl, rfl⟩

/-- Claim C4 (amended): a call that completes with an empty or missing text
field makes `generate_response` fail immediately — on the first attempt,
with no key rotation (the key-manager state is returned unchanged) and no
retry, for every state and budget — but the failure is surfaced as
`generationFailed "Empty response from LLM"`, not as a distinct
`EmptyResponse` error kind. -/
theorem generate_empty_response_immediate (km : KeyManager)
    (calls : Nat → CallOutcome) (max_retries : Nat)
    (h : calls 0 = .success "") :
    generate_response km calls max_retries =
      (.error (.generationFailed "Empty response from LLM"), km) := by
  rw [generate_response, generateAux, h]
  rfl

/-- Claim C4 witness: concrete empty-text run. -/
theorem generate_empty_response_immediate_witness :
    generate_response ⟨"A", ["B"], -1⟩ (fun _ => .success "") 5 =
      (.error (.generationFailed "Empty response from LLM"),
        ⟨"A", ["B"], -1⟩) :=
  generate_empty_response_immediate ⟨"A", ["B"], -1⟩ (fun _ => .success "") 5
    rfl

/-- Claim C9: whenever the primary credential is absent (the environment
variable unset, or set to the empty string, both falsy in Python),
`KeyManager` construction itself fails with the configuration error, for
every fallback environment. -/
theorem keyManager_init_requires_primary (primary : Option String)
    (slots : List (Option String)) (h : pyFalsy primary = true) :
    KeyManager.init primary slots = .error ConfigErr.missingPrimaryKey := by
  rw [KeyManager.init, if_pos h]

/-- Claim C9 witness: construction with no primary key set fails even with
fallback slots present. -/
theorem keyManager_init_requires_primary_witness :
    KeyManager.init none [some "B", some "C"] =
      .error ConfigErr.missingPrimaryKey :=
  keyManager_init_requires_primary none [some "B", some "C"] rfl

/-! ### Cache lemmas -/

lemma insertByAtime_perm (f : CacheFile) (l : CacheState) :
    (insertByAtime f l).Perm (f :: l) := by
  induction l with
  | nil => simp [insertByAtime]
  | cons g gs ih =>
    rw [insertByAtime]
    split
    · exact List.Perm.refl _
    · exact (ih.cons g).trans (List.Perm.swap f g gs)

lemma sortByAtime_perm (l : CacheState) : (sortByAtime l).Perm l := by
  induction l with
  | nil => exact List.Perm.refl _
  | cons f fs ih => exact (insertByAtime_perm f (sortByAtime fs)).trans (ih.cons f)

lemma insertByAtime_pairwise (f : CacheFile) (l : CacheState)
    (hl : l.Pairwise (fun a b => a.atime ≤ b.atime)) :
    (insertByAtime f l).Pairwise (fun a b => a.atime ≤ b.atime) := by
  induction l with
  | nil => simp [insertByAtime]
  | cons g gs ih =>
    obtain ⟨hg, hgs⟩ := List.pairwise_cons.mp hl
    rw [insertByAtime]
    split
    · next hle =>
      refine List.pairwise_cons.mpr ⟨?_, hl⟩
      intro b hb
      rcases List.mem_cons.mp hb with rfl | hb
      · exact hle
      · exact le_trans hle (hg b hb)
    · next hgt =>
      refine List.pairwise_cons.mpr ⟨?_, ih hgs⟩
      intro b hb
      have hb' := (insertByAtime_perm f gs).mem_iff.mp hb
      rcases List.mem_cons.mp hb' with rfl | hb'
      · omega
      · exact hg b hb'

lemma sortByAtime_pairwise (l : CacheState) :
    (sortByAtime l).Pairwise (fun a b => a.atime ≤ b.atime) := by
  induction l with
  | nil => simp [sortByAtime]
  | cons f fs ih => exact insertByAtime_pairwise f (sortByAtime fs) ih

/-- A unique strictly oldest file comes first in the sort by access time. -/
lemma sortByAtime_head_min (l : CacheState) (fmin : CacheFile)
    (hmem : fmin ∈ l) (hmin : ∀ g ∈ l, g ≠ fmin → fmin.atime < g.atime) :
    ∃ rest, sortByAtime l = fmin :: rest := by
  have hperm := sortByAtime_perm l
  have hpair := sortByAtime_pairwise l
  cases hs : sortByAtime l with
  | nil =>
    rw [hs] at hperm
    rw [← hperm.mem_iff] at hmem
    cases hmem
  | cons h rest =>
    refine ⟨rest, ?_⟩
    by_cases hh : h = fmin
    · rw [hh]
    · exfalso
      rw [hs] at hperm hpair
      have hmemf : fmin ∈ h :: rest := hperm.mem_iff.mpr hmem
      rcases List.mem_cons.mp hmemf with rfl | hrest
      · exact hh rfl
      · have hle : h.atime ≤ fmin.atime :=
          (List.pairwise_cons.mp hpair).1 fmin hrest
        have hlt : fmin.atime < h.atime :=
          hmin h (hperm.mem_iff.mp (List.mem_cons_self h rest)) hh
        omega

/-- A unique strictly newest file comes last in the sort by access time. -/
lemma sortByAtime_concat_max (l : CacheState) (fmax : CacheFile)
    (hmem : fmax ∈ l) (hmax : ∀ g ∈ l, g ≠ fmax → g.atime < fmax.atime) :
    ∃ front, sortByAtime l = front ++ [fmax] := by
  have hperm := sortByAtime_perm l
  have hpair := sortByAtime_pairwise l
  rcases List.eq_nil_or_concat (sortByAtime l) with hs | ⟨front, lastE, hs⟩
  · rw [hs] at hperm
    rw [← hperm.mem_iff] at hmem
    cases hmem
  · rw [List.concat_eq_append] at hs
    refine ⟨front, ?_⟩
    rw [hs]
    by_cases hh : lastE = fmax
    · rw [hh]
    · exfalso
      rw [hs] at hperm hpair
      have hmemf : fmax ∈ front ++ [lastE] := hperm.mem_iff.mpr hmem
      rcases List.mem_append.mp hmemf with hfront | hlast
      · have hle : fmax.atime ≤ lastE.atime :=
          (List.pairwise_append.mp hpair).2.2 fmax hfront lastE
            (List.mem_singleton_self _)
        have hlt : lastE.atime < fmax.atime :=
          hmax lastE
            (hperm.mem_iff.mp (List.mem_append_right front
              (List.mem_singleton_self _))) hh
        omega
      · exact hh (List.mem_singleton.mp hlast).symm

/-- When a predicate holds of exactly one value occurring in a list,
`find?` returns that value. -/
lemma find?_eq_of_unique {p : CacheFile → Bool} {l : CacheState}
    {v : CacheFile} (hv : v ∈ l) (hpv : p v = true)
    (huniq : ∀ x ∈ l, p x = true → x = v) :
    l.find? p = some v := by
  induction l with
  | nil => cases hv
  | cons h tl ih =>
    rw [List.find?_cons]
    by_cases hp : p h = true
    · rw [hp]
      exact congrArg some (huniq h (List.mem_cons_self h tl) hp)
    · rw [Bool.eq_false_iff.mpr hp]
      have hvt : v ∈ tl := by
        rcases List.mem_cons.mp hv with rfl | hvt
        · exact absurd hpv hp
        · exact hvt
      exact ih hvt (fun x hx hpx => huniq x (List.mem_cons_of_mem h hx) hpx)

lemma setFile_fresh {name : String} {now : Nat} {e : CacheEntry}
    {st : CacheState} (h : ∀ f ∈ st, f.name ≠ name) :
    setFile name now e st = ⟨name, now, e⟩ :: st := by
  rw [setFile, if_neg]
  intro hc
  rw [List.any_eq_true] at hc
  obtain ⟨f, hf, hfn⟩ := hc
  exact h f hf (by simpa using hfn)

/-- Overwriting a stored key replaces its payload in place: `find?` on the
rewritten directory returns a file carrying the new payload (and its old
access time). -/
lemma find?_setFile_overwrite (name : String) (e : CacheEntry)
    (st : CacheState) (hpres : ∃ f ∈ st, (f.name == name) = true) :
    ∃ g, (st.map (fun f => if f.name == name then ⟨f.name, f.atime, e⟩
        else f)).find? (fun f => f.name == name) = some g ∧ g.entry = e := by
  induction st with
  | nil => obtain ⟨f, hf, _⟩ := hpres; cases hf
  | cons h tl ih =>
    rw [List.map_cons]
    by_cases hh : (h.name == name) = true
    · rw [if_pos hh]
      exact ⟨⟨h.name, h.atime, e⟩,
        List.find?_cons_of_pos _ (by simpa using hh), rfl⟩
    · rw [if_neg hh]
      have htl : ∃ f ∈ tl, (f.name == name) = true := by
        obtain ⟨f, hf, hfn⟩ := hpres
        rcases List.mem_cons.mp hf with rfl | hf
        · exact absurd hfn hh
        · exact ⟨f, hf, hfn⟩
      obtain ⟨g, hg, hge⟩ := ih htl
      refine ⟨g, ?_, hge⟩
      have hstep : List.find? (fun f => f.name == name)
          (h :: tl.map (fun f => if f.name == name
            then ⟨f.name, f.atime, e⟩ else f)) =
          List.find? (fun f => f.name == name)
            (tl.map (fun f => if f.name == name
              then ⟨f.name, f.atime, e⟩ else f)) :=
        List.find?_cons_of_neg _ hh
      rw [hstep]
      exact hg

/-- Members of the directory after eviction were members before it. -/
lemma enforce_subset {maxFiles : Nat} {st : CacheState} {g : CacheFile}
    (hg : g ∈ enforce_lru_cache_limit maxFiles st) : g ∈ st := by
  rw [enforce_lru_cache_limit] at hg
  split at hg
  · exact (sortByAtime_perm st).mem_iff.mp (List.mem_of_mem_drop hg)
  · exact hg

/-! ### Claims C6-C8, C10 -/

/-- Claim C6: after every save the number of stored entries is at most the
configured maximum (last conjunct, over arbitrary directories); and when a
directory already holds `maxFiles` entries, saving one more distinct key
leaves exactly `maxFiles` entries, the evicted file being precisely the one
with the (unique) oldest access-time marker — every other file, and the new
entry, survive. -/
theorem save_lru_eviction (maxFiles now : Nat) (owner repo s t c : String)
    (st : CacheState) (fmin : CacheFile)
    (hlen : st.length = maxFiles)
    (hfresh : ∀ f ∈ st, f.name ≠ cacheName owner repo)
    (hatime : ∀ f ∈ st, f.atime < now)
    (hminmem : fmin ∈ st)
    (hmin : ∀ g ∈ st, g ≠ fmin → fmin.atime < g.atime)
    (hnodup : st.Nodup) :
    (save_repo_cache maxFiles now owner repo s t c st).length = maxFiles ∧
    fmin ∉ save_repo_cache maxFiles now owner repo s t c st ∧
    (∀ g ∈ st, g ≠ fmin →
      g ∈ save_repo_cache maxFiles now owner repo s t c st) ∧
    (⟨cacheName owner repo, now, ⟨s, t, c, now⟩⟩ : CacheFile) ∈
      save_repo_cache maxFiles now owner repo s t c st ∧
    (∀ (st2 : CacheState) (n2 : Nat) (o2 r2 s2 t2 c2 : String),
      (save_repo_cache maxFiles n2 o2 r2 s2 t2 c2 st2).length ≤ maxFiles) := by
  have hgen : ∀ (st2 : CacheState) (n2 : Nat) (o2 r2 s2 t2 c2 : String),
      (save_repo_cache maxFiles n2 o2 r2 s2 t2 c2 st2).length ≤ maxFiles := by
    intro st2 n2 o2 r2 s2 t2 c2
    rw [save_repo_cache, enforce_lru_cache_limit]
    split
    · next hlt =>
      rw [List.length_drop, (sortByAtime_perm _).length_eq]
      omega
    · next hlt => omega
  set newF : CacheFile := ⟨cacheName owner repo, now, ⟨s, t, c, now⟩⟩ with hnewF
  have hset : setFile (cacheName owner repo) now ⟨s, t, c, now⟩ st =
      newF :: st := setFile_fresh hfresh
  have hnewF_notin : newF ∉ st := by
    intro hmem
    have := hatime newF hmem
    simp [hnewF] at this
  have hnodup' : (newF :: st).Nodup := List.nodup_cons.mpr ⟨hnewF_notin, hnodup⟩
  have hminmem' : fmin ∈ newF :: st := List.mem_cons_of_mem newF hminmem
  have hmin' : ∀ g ∈ newF :: st, g ≠ fmin → fmin.atime < g.atime := by
    intro g hg hne
    rcases List.mem_cons.mp hg with rfl | hg
    · have := hatime fmin hminmem
      simp only [hnewF]
      omega
    · exact hmin g hg hne
  obtain ⟨rest, hsort⟩ := sortByAtime_head_min (newF :: st) fmin hminmem' hmin'
  have hlen' : (newF :: st).length = maxFiles + 1 := by simp [hlen]
  have hsave : save_repo_cache maxFiles now owner repo s t c st = rest := by
    rw [save_repo_cache, hset, enforce_lru_cache_limit, if_pos (by omega),
      hsort, hlen']
    rw [show maxFiles + 1 - maxFiles = 1 by omega]
    rfl
  have hsortnodup : (fmin :: rest).Nodup := by
    rw [← hsort]
    exact (sortByAtime_perm (newF :: st)).nodup_iff.mpr hnodup'
  have hsortlen : (fmin :: rest).length = maxFiles + 1 := by
    rw [← hsort, (sortByAtime_perm _).length_eq, hlen']
  refine ⟨?_, ?_, ?_, ?_, hgen⟩
  · rw [hsave]
    simpa using hsortlen
  · rw [hsave]
    exact (List.nodup_cons.mp hsortnodup).1
  · intro g hg hne
    rw [hsave]
    have hg' : g ∈ fmin :: rest := by
      rw [← hsort]
      exact (sortByAtime_perm _).mem_iff.mpr (List.mem_cons_of_mem newF hg)
    rcases List.mem_cons.mp hg' with rfl | hg'
    · exact absurd rfl hne
    · exact hg'
  · rw [hsave]
    have hne : newF ≠ fmin := by
      intro h
      have := hatime fmin hminmem
      rw [← h] at this
      simp [hnewF] at this
    have hg' : newF ∈ fmin :: rest := by
      rw [← hsort]
      exact (sortByAtime_perm _).mem_iff.mpr (List.mem_cons_self _ _)
    rcases List.mem_cons.mp hg' with h | h
    · exact absurd h hne
    · exact h

/-- Claim C6 witness: with a limit of 2, saving a third distinct key evicts
the file with the oldest access time. -/
theorem save_lru_eviction_witness :
    (save_repo_cache 2 5 "e" "f" "x" "y" "z"
      [⟨"a_b", 1, ⟨"x", "y", "z", 1⟩⟩, ⟨"c_d", 2, ⟨"x", "y", "z", 2⟩⟩]).length
      = 2 ∧
    (⟨"a_b", 1, ⟨"x", "y", "z", 1⟩⟩ : CacheFile) ∉
      save_repo_cache 2 5 "e" "f" "x" "y" "z"
        [⟨"a_b", 1, ⟨"x", "y", "z", 1⟩⟩, ⟨"c_d", 2, ⟨"x", "y", "z", 2⟩⟩] ∧
    (⟨"e_f", 5, ⟨"x", "y", "z", 5⟩⟩ : CacheFile) ∈
      save_repo_cache 2 5 "e" "f" "x" "y" "z"
        [⟨"a_b", 1, ⟨"x", "y", "z", 1⟩⟩, ⟨"c_d", 2, ⟨"x", "y", "z", 2⟩⟩] := by
  have h := save_lru_eviction 2 5 "e" "f" "x" "y" "z"
    [⟨"a_b", 1, ⟨"x", "y", "z", 1⟩⟩, ⟨"c_d", 2, ⟨"x", "y", "z", 2⟩⟩]
    ⟨"a_b", 1, ⟨"x", "y", "z", 1⟩⟩ rfl (by decide) (by decide) (by decide)
    (by decide) (by decide)
  exact ⟨h.1, h.2.1, h.2.2.2.1⟩

/-- Claim C7: when a record for the key exists, `load_repo_cache` serves
its entry iff `now - cached_at < ttl`; a TTL-expired record yields a miss,
yet the stored record (with its payload unchanged) still exists in the
directory afterwards — `load` does not delete it. -/
theorem load_ttl_expiry (ttl now : Nat) (owner repo : String)
    (st : CacheState) (f : CacheFile)
    (hfind : st.find? (fun g => g.name == cacheName owner repo) = some f) :
    ((load_repo_cache ttl now owner repo st).1 = some f.entry ↔
      (now : Int) - (f.entry.cached_at : Int) < (ttl : Int)) ∧
    ((ttl : Int) ≤ (now : Int) - (f.entry.cached_at : Int) →
      (load_repo_cache ttl now owner repo st).1 = none) ∧
    (⟨cacheName owner repo, now, f.entry⟩ : CacheFile) ∈
      (load_repo_cache ttl now owner repo st).2 := by
  have hmem : f ∈ st := List.mem_of_find?_eq_some hfind
  have hname : (f.name == cacheName owner repo) = true := by
    simpa using List.find?_some hfind
  have hmem2 : (⟨cacheName owner repo, now, f.entry⟩ : CacheFile) ∈
      st.map (fun g => if g.name == cacheName owner repo
        then { g with atime := now } else g) := by
    refine List.mem_map.mpr ⟨f, hmem, ?_⟩
    rw [if_pos hname]
    have : f.name = cacheName owner repo := by simpa using hname
    cases f
    simp_all
  simp only [load_repo_cache, hfind]
  by_cases hc : (now : Int) - (f.entry.cached_at : Int) < (ttl : Int)
  · rw [if_pos hc]
    exact ⟨by simpa using hc, fun h => absurd hc (by omega), hmem2⟩
  · rw [if_neg hc]
    refine ⟨?_, fun _ => rfl, hmem2⟩
    constructor
    · intro h; cases h
    · intro h; exact absurd h hc

/-- Claim C7 witness: an expired record is a miss but survives the load. -/
theorem load_ttl_expiry_witness :
    (load_repo_cache 5 10 "o" "r" [⟨"o_r", 2, ⟨"s", "t", "c", 0⟩⟩]).1 =
      none ∧
    (⟨"o_r", 10, ⟨"s", "t", "c", 0⟩⟩ : CacheFile) ∈
      (load_repo_cache 5 10 "o" "r" [⟨"o_r", 2, ⟨"s", "t", "c", 0⟩⟩]).2 := by
  have h := load_ttl_expiry 5 10 "o" "r" [⟨"o_r", 2, ⟨"s", "t", "c", 0⟩⟩]
    ⟨"o_r", 2, ⟨"s", "t", "c", 0⟩⟩ (by decide)
  exact ⟨h.2.1 (by decide), h.2.2⟩

/-- Claim C8 counterexample: saving over a key that is already cached with
the oldest access time in a directory exceeding the capacity (here limit 1)
evicts the save's OWN freshly written file — overwriting does not refresh
the access-time marker — so the immediate load, well within the TTL,
returns a miss instead of the claimed hit. -/
theorem save_overwrite_eviction_counterexample :
    (load_repo_cache 100 11 "o" "r"
      (save_repo_cache 1 10 "o" "r" "s" "t" "c"
        [⟨"o_r", 5, ⟨"a", "b", "c", 4⟩⟩,
         ⟨"x_y", 6, ⟨"a", "b", "c", 4⟩⟩])).1 = none := rfl

/-- Claim C8 (amended): a save followed by a load of the same key within
the TTL returns a hit carrying exactly the saved summary, tree and content,
with `cached_at` equal to the save time (hence no older than it) — for any
limit of at least one file and any prior directory whose files are older
than the save, PROVIDED the save's own file is not evicted by the
synchronous LRU check: it suffices that the key is not already cached, or
that the directory does not exceed the capacity. (When the key is already
cached, the overwrite leaves its recency marker stale, and in an
over-capacity directory with that marker oldest the save evicts its own
entry and the immediate load misses.) -/
theorem save_then_load_roundtrip (maxFiles ttl tsave tload : Nat)
    (owner repo s t c : String) (st : CacheState)
    (hmax : 1 ≤ maxFiles)
    (hatime : ∀ f ∈ st, f.atime < tsave)
    (hsafe : (∀ f ∈ st, f.name ≠ cacheName owner repo) ∨
      st.length ≤ maxFiles)
    (httl : (tload : Int) - (tsave : Int) < (ttl : Int)) :
    (load_repo_cache ttl tload owner repo
      (save_repo_cache maxFiles tsave owner repo s t c st)).1 =
      some ⟨s, t, c, tsave⟩ := by
  by_cases hpres : st.any (fun f => f.name == cacheName owner repo) = true
  · -- the key is already cached: its payload is overwritten in place, and
    -- by `hsafe` the directory is within capacity, so nothing is evicted
    have hlen : st.length ≤ maxFiles := by
      rcases hsafe with hfr | hle
      · exfalso
        rw [List.any_eq_true] at hpres
        obtain ⟨f, hf, hfn⟩ := hpres
        exact hfr f hf (by simpa using hfn)
      · exact hle
    obtain ⟨g, hfind, hge⟩ := find?_setFile_overwrite (cacheName owner repo)
      ⟨s, t, c, tsave⟩ st (by rwa [List.any_eq_true] at hpres)
    rw [save_repo_cache, setFile, if_pos hpres, enforce_lru_cache_limit,
      if_neg (by rw [List.length_map]; omega)]
    simp only [load_repo_cache, hfind]
    rw [if_pos (by rw [hge]; simpa using httl), hge]
  · -- the key is new: its file is created with access time `tsave`, the
    -- strict maximum, so it survives the eviction of the oldest overflow
    have hfresh : ∀ f ∈ st, f.name ≠ cacheName owner repo := by
      intro f hf hn
      exact hpres (List.any_eq_true.mpr ⟨f, hf, by simp [hn]⟩)
    set newF : CacheFile := ⟨cacheName owner repo, tsave, ⟨s, t, c, tsave⟩⟩
      with hnewF
    have hset : setFile (cacheName owner repo) tsave ⟨s, t, c, tsave⟩ st =
        newF :: st := setFile_fresh hfresh
    have hmemF : newF ∈ newF :: st := List.mem_cons_self _ _
    have hmax' : ∀ g ∈ newF :: st, g ≠ newF → g.atime < newF.atime := by
      intro g hg hne
      rcases List.mem_cons.mp hg with rfl | hg
      · exact absurd rfl hne
      · simpa [hnewF] using hatime g hg
    have hkept : newF ∈ save_repo_cache maxFiles tsave owner repo s t c st := by
      rw [save_repo_cache, hset, enforce_lru_cache_limit]
      split
      · next hlt =>
        obtain ⟨front, hsort⟩ :=
          sortByAtime_concat_max (newF :: st) newF hmemF hmax'
        have hfront : front.length = st.length := by
          have := congrArg List.length hsort
          rw [(sortByAtime_perm (newF :: st)).length_eq] at this
          simp at this
          omega
        have hbound : (newF :: st).length - maxFiles ≤ front.length := by
          simp only [List.length_cons, hfront]
          omega
        rw [hsort, List.drop_append_of_le_length hbound]
        exact List.mem_append_right _ (List.mem_singleton_self _)
      · exact hmemF
    have huniq : ∀ g ∈ save_repo_cache maxFiles tsave owner repo s t c st,
        (g.name == cacheName owner repo) = true → g = newF := by
      intro g hg hgname
      have hg' : g ∈ newF :: st := by
        rw [save_repo_cache, hset] at hg
        exact enforce_subset hg
      rcases List.mem_cons.mp hg' with rfl | hg'
      · rfl
      · exact absurd (by simpa using hgname) (hfresh g hg')
    have hfind : (save_repo_cache maxFiles tsave owner repo s t c st).find?
        (fun g => g.name == cacheName owner repo) = some newF :=
      find?_eq_of_unique hkept (by simp [hnewF]) huniq
    simp only [load_repo_cache, hfind]
    rw [if_pos (by simpa [hnewF] using httl)]

/-- Claim C8 witness: concrete round trips through both safe cases — a key
not yet cached, and an overwrite in a directory within capacity. -/
theorem save_then_load_roundtrip_witness :
    (load_repo_cache 100 6 "o" "r"
      (save_repo_cache 2 5 "o" "r" "s" "t" "c"
        [⟨"a_b", 1, ⟨"x", "y", "z", 1⟩⟩])).1 = some ⟨"s", "t", "c", 5⟩ ∧
    (load_repo_cache 100 6 "o" "r"
      (save_repo_cache 2 5 "o" "r" "s" "t" "c"
        [⟨"o_r", 1, ⟨"x", "y", "z", 1⟩⟩])).1 = some ⟨"s", "t", "c", 5⟩ := by
  constructor
  · exact save_then_load_roundtrip 2 100 5 6 "o" "r" "s" "t" "c"
      [⟨"a_b", 1, ⟨"x", "y", "z", 1⟩⟩] (by decide) (by decide)
      (Or.inl (by decide)) (by decide)
  · exact save_then_load_roundtrip 2 100 5 6 "o" "r" "s" "t" "c"
      [⟨"o_r", 1, ⟨"x", "y", "z", 1⟩⟩] (by decide) (by decide)
      (Or.inr (by decide)) (by decide)

/-- Claim C10: when a record for the key exists, `load_repo_cache` always
returns the directory with that record's access time set to `now` — the
recency marker is refreshed before the TTL check, so it is refreshed even
when the entry is expired and the load reports a miss. Consequently (last,
concrete conjunct) a probed expired entry outranks a live entry in LRU
eviction: after probing the expired `"a_b"` entry, a capacity-exceeding
save evicts the live `"c_d"` entry instead of the expired one. -/
theorem load_refreshes_recency_even_when_expired (ttl now : Nat)
    (owner repo : String) (st : CacheState) (f : CacheFile)
    (hfind : st.find? (fun g => g.name == cacheName owner repo) = some f) :
    ((load_repo_cache ttl now owner repo st).2 =
      st.map (fun g => if g.name == cacheName owner repo
        then { g with atime := now } else g)) ∧
    ((ttl : Int) ≤ (now : Int) - (f.entry.cached_at : Int) →
      (load_repo_cache ttl now owner repo st).1 = none) ∧
    (save_repo_cache 2 11 "e" "f" "s" "t" "c"
      ((load_repo_cache 5 10 "a" "b"
        [⟨"a_b", 2, ⟨"s", "t", "c", 0⟩⟩,
         ⟨"c_d", 3, ⟨"s", "t", "c", 9⟩⟩]).2) =
      [⟨"a_b", 10, ⟨"s", "t", "c", 0⟩⟩,
       ⟨"e_f", 11, ⟨"s", "t", "c", 11⟩⟩]) := by
  refine ⟨?_, ?_, rfl⟩
  · simp only [load_repo_cache, hfind]
    by_cases hc : (now : Int) - (f.entry.cached_at : Int) < (ttl : Int)
    · rw [if_pos hc]
    · rw [if_neg hc]
  · intro h
    simp only [load_repo_cache, hfind]
    rw [if_neg (by omega)]

/-- Claim C10 witness: probing an expired record refreshes its access time
and still reports a miss. -/
theorem load_refreshes_recency_witness :
    (load_repo_cache 5 10 "a" "b" [⟨"a_b", 2, ⟨"s", "t", "c", 0⟩⟩]).2 =
      [⟨"a_b", 10, ⟨"s", "t", "c", 0⟩⟩] ∧
    (load_repo_cache 5 10 "a" "b" [⟨"a_b", 2, ⟨"s", "t", "c", 0⟩⟩]).1 =
      none := by
  have h := load_refreshes_recency_even_when_expired 5 10 "a" "b"
    [⟨"a_b", 2, ⟨"s", "t", "c", 0⟩⟩] ⟨"a_b", 2, ⟨"s", "t", "c", 0⟩⟩
    (by decide)
  exact ⟨by rw [h.1]; rfl, h.2.1 (by decide)⟩

end GithubChat
